import Mathlib

/-!
Verification of the pod-monitor operator's reconciliation core
(`internal/controller/podmonitor_controller.go`) against its
natural-language specification.

The controller is embedded shallowly:

* the global `observedRestarts` Go map (`map[string]int32`) becomes an
  association list `ObservedRestarts` with Go map semantics (missing key
  reads as the zero value `0`);
* `reconcilePod` becomes a pure function from the fetch result and the
  tracker state to the new state, the list of published termination-info
  metric events, the returned `ctrl.Result` and the returned error;
* `reconcileSecret`, `checkCertificateExpiration` and
  `parseCertificateFromPEM` are embedded over an abstract `X509Lib`
  record standing for the Go standard-library collaborators `pem.Decode`
  and `x509.ParseCertificate`;
* Prometheus `GaugeVec`s become association lists from label sets to
  rational values; `With(..).Set` is an upsert, `DeletePartialMatch` a
  filter;
* `time.Time` becomes a (sec, nsec) pair of integers; `time.Duration` an
  integer number of nanoseconds; float64 metric values become `ℚ`.
-/

namespace PodMonitor

/-! ## Pod-path data model -/

/-- `corev1.ContainerStateTerminated`: the fields read by the controller
(`Reason`, `ExitCode`, `FinishedAt.Time.Unix()`). -/
structure ContainerStateTerminated where
  reason : String
  exitCode : Int
  finishedAtUnix : Int
  deriving Repr, DecidableEq

/-- `corev1.ContainerStatus`: the fields read by the controller.
`lastTerminated` models `cs.LastTerminationState.Terminated` (a nil-able
pointer, hence `Option`). -/
structure ContainerStatus where
  name : String
  restartCount : Int
  lastTerminated : Option ContainerStateTerminated
  deriving Repr, DecidableEq

/-- `corev1.Pod`: namespace, name and `Status.ContainerStatuses`. -/
structure Pod where
  ns : String
  name : String
  containerStatuses : List ContainerStatus
  deriving Repr, DecidableEq

/-- The global `observedRestarts map[string]int32`, as an association
list. A key that is absent reads as the Go zero value `0`. -/
abbrev ObservedRestarts := List (String × Int)

/-- `fmt.Sprintf("%s/%s/%s", pod.Namespace, pod.Name, cs.Name)`. -/
def containerKey (ns podName containerName : String) : String :=
  ns ++ "/" ++ podName ++ "/" ++ containerName

/-- Go map read `observedRestarts[containerKey]`: the stored value, or the
zero value `0` when the key is absent. -/
def observedGet (m : ObservedRestarts) (k : String) : Int :=
  match m with
  | [] => 0
  | (k', v) :: rest => if k' = k then v else observedGet rest k

/-- Go map write `observedRestarts[containerKey] = v`: replace the entry
if present, otherwise append it. -/
def observedSet (m : ObservedRestarts) (k : String) (v : Int) : ObservedRestarts :=
  match m with
  | [] => [(k, v)]
  | (k', v') :: rest =>
      if k' = k then (k, v) :: rest else (k', v') :: observedSet rest k v

/-- Whether the Go map has an entry for key `k` (`_, ok := m[k]`). -/
def observedHasKey (m : ObservedRestarts) (k : String) : Bool :=
  match m with
  | [] => false
  | (k', _) :: rest => if k' = k then true else observedHasKey rest k

/-- One `podLastTerminationInfo.With(labels).Set(value)` call: the label
values and the gauge value (`float64(lastState.FinishedAt.Time.Unix())`).
The `exit_code` label is the decimal rendering of the exit code
(`fmt.Sprintf("%d", lastState.ExitCode)`). -/
structure TermEvent where
  ns : String
  pod : String
  container : String
  reason : String
  exitCode : String
  value : ℚ
  deriving Repr, DecidableEq

/-- `ctrl.Result`: the `Requeue` flag and the `RequeueAfter` duration in
nanoseconds (`0` = unset, as in Go's zero value). -/
structure CtrlResult where
  requeue : Bool
  requeueAfter : Int
  deriving Repr, DecidableEq

/-- `ctrl.Result{}`. -/
def emptyResult : CtrlResult := ⟨false, 0⟩

/-- `time.Hour` in nanoseconds. -/
def timeHour : Int := 3600 * 1000000000

/-- Outcome of `r.Get(ctx, req.NamespacedName, &obj)`: the object, a
not-found error (absorbed by `client.IgnoreNotFound`), or any other fetch
error (identified by an opaque id). -/
inductive GetResult (α : Type) where
  | found (obj : α)
  | notFound
  | fetchError (errId : Nat)
  deriving Repr, DecidableEq

/-! ## Pod path: `reconcilePod` -/

/-- The body of the `for _, cs := range pod.Status.ContainerStatuses`
loop in `reconcilePod`: if `cs.RestartCount > observedRestarts[key]` and
`cs.LastTerminationState.Terminated != nil`, publish the termination-info
metric and store the new restart count; otherwise do nothing. -/
def processContainerStatus (podNs podName : String)
    (acc : ObservedRestarts × List TermEvent) (cs : ContainerStatus) :
    ObservedRestarts × List TermEvent :=
  let key := containerKey podNs podName cs.name
  if observedGet acc.1 key < cs.restartCount then
    match cs.lastTerminated with
    | some lastState =>
        (observedSet acc.1 key cs.restartCount,
         acc.2 ++ [⟨podNs, podName, cs.name, lastState.reason,
                    toString lastState.exitCode, (lastState.finishedAtUnix : ℚ)⟩])
    | none => acc
  else acc

/-- `reconcilePod`: fetch the pod; on a non-not-found error return it
with an empty result; on not-found return an empty result (no cleanup);
otherwise run the container-status loop and return an empty result. The
second component is the list of published termination-info metrics, the
last the returned error. -/
def reconcilePod (fetch : GetResult Pod) (obs : ObservedRestarts) :
    ObservedRestarts × List TermEvent × CtrlResult × Option Nat :=
  match fetch with
  | .fetchError e => (obs, [], emptyResult, some e)
  | .notFound => (obs, [], emptyResult, none)
  | .found pod =>
      let r := pod.containerStatuses.foldl
        (processContainerStatus pod.ns pod.name) (obs, [])
      (r.1, r.2, emptyResult, none)

/-- The tracker state after a sequence of pod reconciliations. -/
def reconcilePodSeq (fetches : List (GetResult Pod)) (obs : ObservedRestarts) :
    ObservedRestarts :=
  fetches.foldl (fun s f => (reconcilePod f s).1) obs

/-! ## Certificate-path data model -/

/-- Go `[]byte`. -/
abbrev Bytes := List Nat

/-- A decoded `pem.Block`: its type line and its DER payload
(`block.Bytes`). -/
structure PemBlock where
  blockType : String
  bytes : Bytes
  deriving Repr, DecidableEq

/-- Go `time.Time`, reduced to the fields the controller reads: Unix
seconds and the nanosecond part. `Unix()` returns `sec`. -/
structure GoTime where
  sec : Int
  nsec : Int
  deriving Repr, DecidableEq

/-- An `x509.Certificate`, reduced to the only field the controller
reads: `NotAfter`. -/
structure Certificate where
  notAfter : GoTime
  deriving Repr, DecidableEq

/-- The Go standard-library collaborators used by
`parseCertificateFromPEM`: `pem.Decode` (returns the first PEM block and
the remaining bytes, or nothing) and `x509.ParseCertificate` (returns a
certificate or fails). -/
structure X509Lib where
  pemDecode : Bytes → Option (PemBlock × Bytes)
  parseCertificate : Bytes → Option Certificate

/-- The two error shapes produced by `parseCertificateFromPEM`:
`"failed to parse PEM block"` and `"failed to parse certificate: %w"`. -/
inductive CertError where
  | malformedInput
  | certificateParse
  deriving Repr, DecidableEq

/-- `parseCertificateFromPEM`: decode one PEM block (failing with the
malformed-input error when none is found), parse it as an X.509
certificate (failing with the certificate-parse error), and return the
certificate. The remainder after the first block is discarded. -/
def parseCertificateFromPEM (lib : X509Lib) (pemData : Bytes) :
    Except CertError Certificate :=
  match lib.pemDecode pemData with
  | none => .error .malformedInput
  | some (block, _) =>
      match lib.parseCertificate block.bytes with
      | none => .error .certificateParse
      | some cert => .ok cert

/-- `t.Unix()`. -/
def timeUnix (t : GoTime) : Int := t.sec

/-- `t.Sub(u)` as a `time.Duration` in nanoseconds. -/
def timeSubNs (t u : GoTime) : Int :=
  (t.sec - u.sec) * 1000000000 + (t.nsec - u.nsec)

/-- `Duration.Hours()`: the duration as a fractional number of hours. -/
def durationHours (d : Int) : ℚ := (d : ℚ) / (3600 * 1000000000)

/-- Label set of the two certificate gauge families. -/
structure CertLabels where
  ns : String
  secretName : String
  certType : String
  deriving Repr, DecidableEq

/-- A Prometheus `GaugeVec` over `CertLabels`: one numeric cell per
label set. -/
abbrev Gauge := List (CertLabels × ℚ)

/-- `gauge.With(L).Set(v)`: upsert the cell for label set `L`. -/
def gaugeSet (g : Gauge) (L : CertLabels) (v : ℚ) : Gauge :=
  match g with
  | [] => [(L, v)]
  | (L', v') :: rest =>
      if L' = L then (L, v) :: rest else (L', v') :: gaugeSet rest L v

/-- The current cell for label set `L`, if any. -/
def gaugeGet (g : Gauge) (L : CertLabels) : Option ℚ :=
  match g with
  | [] => none
  | (L', v) :: rest => if L' = L then some v else gaugeGet rest L

/-- `gauge.DeletePartialMatch({namespace, secret_name})`: drop every cell
whose labels match both given values. -/
def deletePartialMatch (g : Gauge) (ns secretName : String) : Gauge :=
  g.filter (fun p => !(p.1.ns == ns && p.1.secretName == secretName))

/-- The two certificate gauge families:
`pod_monitor_certificate_expiration_timestamp_seconds` and
`pod_monitor_certificate_days_until_expiration`. -/
structure CertMetrics where
  expiration : Gauge
  days : Gauge
  deriving Repr, DecidableEq

/-- A `corev1.Secret`, reduced to its `Data` map (key → bytes), as an
association list. -/
structure Secret where
  data : List (String × Bytes)
  deriving Repr, DecidableEq

/-- The allow-list test on a secret key from `reconcileSecret`:
`key == "ca.crt" || key == "issuer.crt" || key == "ca.pem" ||
key == "issuer.pem" || key == "crt.pem"`. -/
def recognizedCertKey (key : String) : Bool :=
  key == "ca.crt" || key == "issuer.crt" || key == "ca.pem" ||
    key == "issuer.pem" || key == "crt.pem"

/-! ## Certificate path: `checkCertificateExpiration`, `reconcileSecret` -/

/-- `checkCertificateExpiration`: parse the certificate (returning the
error and touching no metric on failure); on success set the
absolute-expiry gauge to `float64(cert.NotAfter.Unix())` and the
days-remaining gauge to `cert.NotAfter.Sub(now).Hours() / 24`. -/
def checkCertificateExpiration (lib : X509Lib) (now : GoTime)
    (ns secretName certType : String) (certData : Bytes) (ms : CertMetrics) :
    CertMetrics × Option CertError :=
  match parseCertificateFromPEM lib certData with
  | .error e => (ms, some e)
  | .ok cert =>
      let expirationTime := cert.notAfter
      let daysUntilExpiration := durationHours (timeSubNs expirationTime now) / 24
      ({ expiration := gaugeSet ms.expiration ⟨ns, secretName, certType⟩
           ((timeUnix expirationTime : Int) : ℚ),
         days := gaugeSet ms.days ⟨ns, secretName, certType⟩
           daysUntilExpiration },
       none)

/-- The body of the `for key, data := range secret.Data` loop in
`reconcileSecret`: on a recognized key run `checkCertificateExpiration`,
discarding its error (it is only logged); otherwise skip the key. -/
def checkSecretKey (lib : X509Lib) (now : GoTime) (reqNs reqName : String)
    (acc : CertMetrics) (kv : String × Bytes) : CertMetrics :=
  if recognizedCertKey kv.1 then
    (checkCertificateExpiration lib now reqNs reqName kv.1 kv.2 acc).1
  else acc

/-- `reconcileSecret`: on a non-not-found fetch error return it with an
empty result; on not-found delete the matching cells of both gauge
families and return an empty result; on found, run
`checkCertificateExpiration` on every recognized key (a per-key failure
is only logged) and return a one-hour requeue. -/
def reconcileSecret (lib : X509Lib) (now : GoTime) (reqNs reqName : String)
    (fetch : GetResult Secret) (ms : CertMetrics) :
    CertMetrics × CtrlResult × Option Nat :=
  match fetch with
  | .fetchError e => (ms, emptyResult, some e)
  | .notFound =>
      ({ expiration := deletePartialMatch ms.expiration reqNs reqName,
         days := deletePartialMatch ms.days reqNs reqName },
       emptyResult, none)
  | .found secret =>
      (secret.data.foldl (checkSecretKey lib now reqNs reqName) ms,
       ⟨false, timeHour⟩, none)

/-! ## Concrete instances used by the witness theorems -/

/-- A concrete termination snapshot. -/
def tW : ContainerStateTerminated := ⟨"OOMKilled", 137, 1700000000⟩

/-- A concrete container status: first restart, snapshot present. -/
def csW : ContainerStatus := ⟨"app", 1, some tW⟩

/-- A concrete stand-in for the PEM/X.509 collaborators: `[0]` and `[5]`
decode to the same first block `[1]` (with different remainders), `[7]`
decodes to the unparseable block `[3]`, everything else has no PEM
block; only block `[1]` parses, to a certificate expiring at Unix second
100. -/
def libW : X509Lib where
  pemDecode b :=
    if b = [0] then some (⟨"CERTIFICATE", [1]⟩, [2])
    else if b = [5] then some (⟨"CERTIFICATE", [1]⟩, [9])
    else if b = [7] then some (⟨"CERTIFICATE", [3]⟩, [])
    else none
  parseCertificate b := if b = [1] then some ⟨⟨100, 0⟩⟩ else none

/-- A concrete clock. -/
def nowW : GoTime := ⟨0, 0⟩

/-- Concrete certificate metrics: one cell matching the watched secret in
each family, and one cell for an unrelated namespace. -/
def msW : CertMetrics :=
  ⟨[(⟨"linkerd", "linkerd-identity-issuer", "ca.crt"⟩, 1),
    (⟨"other", "s", "ca.crt"⟩, 2)],
   [(⟨"linkerd", "linkerd-identity-issuer", "ca.crt"⟩, 3)]⟩

/-- A concrete secret: a valid recognized key, a truncated recognized
key, and an unrecognized key. -/
def secretW : Secret :=
  ⟨[("ca.crt", [0]), ("issuer.crt", [7]), ("tls.key", [0])]⟩

/-- A concrete pod with one container status. -/
def podW : Pod := ⟨"default", "mypod", [csW]⟩

/-! ## Association-list lemmas -/

theorem observedGet_observedSet (m : ObservedRestarts) (k : String) (v : Int)
    (k' : String) :
    observedGet (observedSet m k v) k' = if k = k' then v else observedGet m k' := by
  induction m with
  | nil => simp [observedSet, observedGet]
  | cons p rest ih =>
      obtain ⟨k1, v1⟩ := p
      by_cases h1 : k1 = k
      · subst h1
        by_cases h2 : k1 = k'
        · subst h2; simp [observedSet, observedGet]
        · simp [observedSet, observedGet, h2]
      · by_cases h2 : k1 = k'
        · subst h2
          have hkk : ¬ k = k1 := fun h => h1 h.symm
          simp [observedSet, observedGet, h1, hkk]
        · simp [observedSet, observedGet, h1, h2, ih]

theorem observedHasKey_observedSet (m : ObservedRestarts) (k : String) (v : Int)
    (k' : String) :
    observedHasKey (observedSet m k v) k' =
      if k = k' then true else observedHasKey m k' := by
  induction m with
  | nil => simp [observedSet, observedHasKey]
  | cons p rest ih =>
      obtain ⟨k1, v1⟩ := p
      by_cases h1 : k1 = k
      · subst h1
        by_cases h2 : k1 = k'
        · subst h2; simp [observedSet, observedHasKey]
        · simp [observedSet, observedHasKey, h2]
      · by_cases h2 : k1 = k'
        · subst h2
          have hkk : ¬ k = k1 := fun h => h1 h.symm
          simp [observedSet, observedHasKey, h1, hkk]
        · simp [observedSet, observedHasKey, h1, h2, ih]

theorem observedGet_of_hasKey_eq_false (m : ObservedRestarts) (k : String)
    (h : observedHasKey m k = false) : observedGet m k = 0 := by
  induction m with
  | nil => rfl
  | cons p rest ih =>
      obtain ⟨k1, v1⟩ := p
      by_cases h1 : k1 = k
      · simp [observedHasKey, h1] at h
      · simp only [observedHasKey, if_neg h1] at h
        simp [observedGet, h1, ih h]

theorem gaugeGet_gaugeSet (g : Gauge) (L : CertLabels) (v : ℚ)
    (L' : CertLabels) :
    gaugeGet (gaugeSet g L v) L' = if L = L' then some v else gaugeGet g L' := by
  induction g with
  | nil => simp [gaugeSet, gaugeGet]
  | cons p rest ih =>
      obtain ⟨L1, v1⟩ := p
      by_cases h1 : L1 = L
      · subst h1
        by_cases h2 : L1 = L'
        · subst h2; simp [gaugeSet, gaugeGet]
        · simp [gaugeSet, gaugeGet, h2]
      · by_cases h2 : L1 = L'
        · subst h2
          have hkk : ¬ L = L1 := fun h => h1 h.symm
          simp [gaugeSet, gaugeGet, h1, hkk]
        · simp [gaugeSet, gaugeGet, h1, h2, ih]

/-! ## Loop-body lemmas for the pod path -/

theorem processContainerStatus_of_new (podNs podName : String)
    (acc : ObservedRestarts × List TermEvent) (cs : ContainerStatus)
    (t : ContainerStateTerminated) (ht : cs.lastTerminated = some t)
    (hlt : observedGet acc.1 (containerKey podNs podName cs.name) < cs.restartCount) :
    processContainerStatus podNs podName acc cs =
      (observedSet acc.1 (containerKey podNs podName cs.name) cs.restartCount,
       acc.2 ++ [⟨podNs, podName, cs.name, t.reason, toString t.exitCode,
                  (t.finishedAtUnix : ℚ)⟩]) := by
  simp [processContainerStatus, ht, hlt]

theorem processContainerStatus_of_stale (podNs podName : String)
    (acc : ObservedRestarts × List TermEvent) (cs : ContainerStatus)
    (h : ¬ (observedGet acc.1 (containerKey podNs podName cs.name) < cs.restartCount
            ∧ cs.lastTerminated ≠ none)) :
    processContainerStatus podNs podName acc cs = acc := by
  by_cases hlt : observedGet acc.1 (containerKey podNs podName cs.name) < cs.restartCount
  · cases ht : cs.lastTerminated with
    | none => simp [processContainerStatus, hlt, ht]
    | some t => exact absurd ⟨hlt, by simp [ht]⟩ h
  · simp [processContainerStatus, hlt]

theorem processContainerStatus_cases (podNs podName : String)
    (acc : ObservedRestarts × List TermEvent) (cs : ContainerStatus) :
    (∃ t, cs.lastTerminated = some t ∧
       observedGet acc.1 (containerKey podNs podName cs.name) < cs.restartCount ∧
       processContainerStatus podNs podName acc cs =
         (observedSet acc.1 (containerKey podNs podName cs.name) cs.restartCount,
          acc.2 ++ [⟨podNs, podName, cs.name, t.reason, toString t.exitCode,
                     (t.finishedAtUnix : ℚ)⟩])) ∨
    processContainerStatus podNs podName acc cs = acc := by
  by_cases hlt : observedGet acc.1 (containerKey podNs podName cs.name) < cs.restartCount
  · cases ht : cs.lastTerminated with
    | none => exact Or.inr (processContainerStatus_of_stale _ _ _ _ (by simp [ht]))
    | some t =>
        exact Or.inl ⟨t, rfl, hlt, processContainerStatus_of_new _ _ _ _ t ht hlt⟩
  · exact Or.inr (processContainerStatus_of_stale _ _ _ _ (by tauto))

theorem processContainerStatus_observedGet_le (podNs podName : String)
    (acc : ObservedRestarts × List TermEvent) (cs : ContainerStatus) (k : String) :
    observedGet acc.1 k ≤ observedGet (processContainerStatus podNs podName acc cs).1 k := by
  rcases processContainerStatus_cases podNs podName acc cs with ⟨t, ht, hlt, heq⟩ | heq
  · rw [heq]
    simp only [observedGet_observedSet]
    by_cases hk : containerKey podNs podName cs.name = k
    · subst hk; simp; omega
    · simp [hk]
  · rw [heq]

theorem processContainerStatus_events_extend (podNs podName : String)
    (acc : ObservedRestarts × List TermEvent) (cs : ContainerStatus) :
    ∃ tail, (processContainerStatus podNs podName acc cs).2 = acc.2 ++ tail := by
  rcases processContainerStatus_cases podNs podName acc cs with ⟨t, _, _, heq⟩ | heq
  · exact ⟨_, by rw [heq]⟩
  · exact ⟨[], by rw [heq]; simp⟩

theorem processContainerStatus_hasKey (podNs podName : String)
    (acc : ObservedRestarts × List TermEvent) (cs : ContainerStatus) (k : String)
    (h : observedHasKey (processContainerStatus podNs podName acc cs).1 k = true) :
    observedHasKey acc.1 k = true ∨
      ∃ ev ∈ (processContainerStatus podNs podName acc cs).2,
        containerKey ev.ns ev.pod ev.container = k := by
  rcases processContainerStatus_cases podNs podName acc cs with ⟨t, ht, hlt, heq⟩ | heq
  · rw [heq] at h ⊢
    simp only [observedHasKey_observedSet] at h
    by_cases hk : containerKey podNs podName cs.name = k
    · refine Or.inr ⟨⟨podNs, podName, cs.name, t.reason, toString t.exitCode,
        (t.finishedAtUnix : ℚ)⟩, by simp, hk⟩
    · rw [if_neg hk] at h
      exact Or.inl h
  · rw [heq] at h
    exact Or.inl h

/-! ## Fold lemmas for the pod path -/

theorem foldl_observedGet_le (podNs podName : String)
    (l : List ContainerStatus) :
    ∀ (acc : ObservedRestarts × List TermEvent) (k : String),
      observedGet acc.1 k ≤
        observedGet (l.foldl (processContainerStatus podNs podName) acc).1 k := by
  induction l with
  | nil => intro acc k; simp
  | cons cs rest ih =>
      intro acc k
      calc observedGet acc.1 k
          ≤ observedGet (processContainerStatus podNs podName acc cs).1 k :=
            processContainerStatus_observedGet_le podNs podName acc cs k
        _ ≤ _ := by simpa using ih (processContainerStatus podNs podName acc cs) k

theorem foldl_events_extend (podNs podName : String) (l : List ContainerStatus) :
    ∀ (acc : ObservedRestarts × List TermEvent),
      ∃ tail, (l.foldl (processContainerStatus podNs podName) acc).2 = acc.2 ++ tail := by
  induction l with
  | nil => intro acc; exact ⟨[], by simp⟩
  | cons cs rest ih =>
      intro acc
      obtain ⟨t1, h1⟩ := processContainerStatus_events_extend podNs podName acc cs
      obtain ⟨t2, h2⟩ := ih (processContainerStatus podNs podName acc cs)
      exact ⟨t1 ++ t2, by simp [h2, h1]⟩

theorem foldl_hasKey (podNs podName : String) (l : List ContainerStatus) :
    ∀ (acc : ObservedRestarts × List TermEvent) (k : String),
      observedHasKey (l.foldl (processContainerStatus podNs podName) acc).1 k = true →
      observedHasKey acc.1 k = true ∨
        ∃ ev ∈ (l.foldl (processContainerStatus podNs podName) acc).2,
          containerKey ev.ns ev.pod ev.container = k := by
  induction l with
  | nil => intro acc k h; exact Or.inl h
  | cons cs rest ih =>
      intro acc k h
      rcases ih (processContainerStatus podNs podName acc cs) k (by simpa using h) with
        h' | ⟨ev, hev, hkey⟩
      · rcases processContainerStatus_hasKey podNs podName acc cs k h' with
          h'' | ⟨ev, hev, hkey⟩
        · exact Or.inl h''
        · obtain ⟨t2, h2⟩ :=
            foldl_events_extend podNs podName rest
              (processContainerStatus podNs podName acc cs)
          refine Or.inr ⟨ev, ?_, hkey⟩
          simp only [List.foldl_cons]
          rw [h2]
          exact List.mem_append_left _ hev
      · refine Or.inr ⟨ev, ?_, hkey⟩
        simpa using hev

/-! ## Loop-body and fold lemmas for the certificate path -/

theorem checkSecretKey_gaugeGet_ne (lib : X509Lib) (now : GoTime)
    (reqNs reqName : String) (acc : CertMetrics) (k' : String) (d : Bytes)
    (k : String) (hne : k' ≠ k) :
    gaugeGet (checkSecretKey lib now reqNs reqName acc (k', d)).expiration
        ⟨reqNs, reqName, k⟩ = gaugeGet acc.expiration ⟨reqNs, reqName, k⟩ ∧
    gaugeGet (checkSecretKey lib now reqNs reqName acc (k', d)).days
        ⟨reqNs, reqName, k⟩ = gaugeGet acc.days ⟨reqNs, reqName, k⟩ := by
  unfold checkSecretKey
  by_cases hr : recognizedCertKey k' = true
  · simp only [hr, if_true]
    unfold checkCertificateExpiration
    cases hp : parseCertificateFromPEM lib d with
    | error e => simp
    | ok cert =>
        have hL : (⟨reqNs, reqName, k'⟩ : CertLabels) ≠ ⟨reqNs, reqName, k⟩ := by
          intro h
          exact hne (congrArg CertLabels.certType h)
        simp [gaugeGet_gaugeSet, hL]
  · simp [hr]

theorem foldl_checkSecretKey_gaugeGet_notMem (lib : X509Lib) (now : GoTime)
    (reqNs reqName : String) (l : List (String × Bytes)) (k : String) :
    k ∉ l.map Prod.fst →
    ∀ acc : CertMetrics,
      gaugeGet (l.foldl (checkSecretKey lib now reqNs reqName) acc).expiration
          ⟨reqNs, reqName, k⟩ = gaugeGet acc.expiration ⟨reqNs, reqName, k⟩ ∧
      gaugeGet (l.foldl (checkSecretKey lib now reqNs reqName) acc).days
          ⟨reqNs, reqName, k⟩ = gaugeGet acc.days ⟨reqNs, reqName, k⟩ := by
  induction l with
  | nil => intro _ acc; exact ⟨rfl, rfl⟩
  | cons kv rest ih =>
      intro hk acc
      obtain ⟨k1, d1⟩ := kv
      simp only [List.map_cons, List.mem_cons] at hk
      push_neg at hk
      obtain ⟨hk1, hkrest⟩ := hk
      have h1 := checkSecretKey_gaugeGet_ne lib now reqNs reqName acc k1 d1 k
        (fun h => hk1 h.symm)
      have h2 := ih hkrest (checkSecretKey lib now reqNs reqName acc (k1, d1))
      exact ⟨by simpa [h1.1] using h2.1, by simpa [h1.2] using h2.2⟩

theorem checkSecretKey_of_parseError (lib : X509Lib) (now : GoTime)
    (reqNs reqName : String) (acc : CertMetrics) (k : String) (d : Bytes)
    (e : CertError) (hp : parseCertificateFromPEM lib d = .error e) :
    checkSecretKey lib now reqNs reqName acc (k, d) = acc := by
  unfold checkSecretKey checkCertificateExpiration
  by_cases hr : recognizedCertKey k = true <;> simp [hr, hp]

theorem checkSecretKey_of_parseOk (lib : X509Lib) (now : GoTime)
    (reqNs reqName : String) (acc : CertMetrics) (k : String) (d : Bytes)
    (cert : Certificate) (hr : recognizedCertKey k = true)
    (hp : parseCertificateFromPEM lib d = .ok cert) :
    gaugeGet (checkSecretKey lib now reqNs reqName acc (k, d)).expiration
        ⟨reqNs, reqName, k⟩ = some ((timeUnix cert.notAfter : Int) : ℚ) ∧
    gaugeGet (checkSecretKey lib now reqNs reqName acc (k, d)).days
        ⟨reqNs, reqName, k⟩ =
      some (durationHours (timeSubNs cert.notAfter now) / 24) := by
  unfold checkSecretKey checkCertificateExpiration
  simp [hr, hp, gaugeGet_gaugeSet]

theorem daysValue_eq_secondsOver86400 (t u : GoTime) :
    durationHours (timeSubNs t u) / 24 =
      (((t.sec : ℚ) + (t.nsec : ℚ) / 1000000000)
        - ((u.sec : ℚ) + (u.nsec : ℚ) / 1000000000)) / 86400 := by
  unfold durationHours timeSubNs
  push_cast
  ring

theorem mem_deletePartialMatch (g : Gauge) (ns secretName : String)
    (p : CertLabels × ℚ) :
    p ∈ deletePartialMatch g ns secretName ↔
      p ∈ g ∧ ¬ (p.1.ns = ns ∧ p.1.secretName = secretName) := by
  simp [deletePartialMatch, List.mem_filter]
  tauto

/-! ## Claim theorems -/

/-- C1: on the pod-restart path with the pod found, each container status
publishes a termination-info metric exactly when its restart count
strictly exceeds the stored counter for its identity key and a
last-termination snapshot is present, and exactly then the stored counter
is updated to the candidate value; an unseen identity reads as 0, so a
first restart (count ≥ 1) with a snapshot is always published; replaying
the identical observation is a no-op; `reconcilePod` on a found pod is
exactly the fold of this step over the container statuses. -/
theorem C1_observe_publishes_iff (podNs podName : String) (obs : ObservedRestarts)
    (evs : List TermEvent) (cs : ContainerStatus) (t : ContainerStateTerminated) :
    (cs.lastTerminated = some t →
      observedGet obs (containerKey podNs podName cs.name) < cs.restartCount →
      processContainerStatus podNs podName (obs, evs) cs =
        (observedSet obs (containerKey podNs podName cs.name) cs.restartCount,
         evs ++ [⟨podNs, podName, cs.name, t.reason, toString t.exitCode,
                  (t.finishedAtUnix : ℚ)⟩]))
    ∧ (¬ (observedGet obs (containerKey podNs podName cs.name) < cs.restartCount
           ∧ cs.lastTerminated ≠ none) →
        processContainerStatus podNs podName (obs, evs) cs = (obs, evs))
    ∧ (observedHasKey obs (containerKey podNs podName cs.name) = false →
        observedGet obs (containerKey podNs podName cs.name) = 0)
    ∧ (observedHasKey obs (containerKey podNs podName cs.name) = false →
        1 ≤ cs.restartCount → cs.lastTerminated = some t →
        (processContainerStatus podNs podName (obs, evs) cs).2 =
          evs ++ [⟨podNs, podName, cs.name, t.reason, toString t.exitCode,
                   (t.finishedAtUnix : ℚ)⟩])
    ∧ processContainerStatus podNs podName
        (processContainerStatus podNs podName (obs, evs) cs) cs =
        processContainerStatus podNs podName (obs, evs) cs
    ∧ (∀ (pod : Pod) (obs0 : ObservedRestarts),
        reconcilePod (GetResult.found pod) obs0 =
          ((pod.containerStatuses.foldl
              (processContainerStatus pod.ns pod.name) (obs0, [])).1,
           (pod.containerStatuses.foldl
              (processContainerStatus pod.ns pod.name) (obs0, [])).2,
           emptyResult, none)) := by
  refine ⟨?_, ?_, ?_, ?_, ?_, ?_⟩
  · intro ht hlt
    exact processContainerStatus_of_new podNs podName (obs, evs) cs t ht hlt
  · intro h
    exact processContainerStatus_of_stale podNs podName (obs, evs) cs h
  · intro h
    exact observedGet_of_hasKey_eq_false obs _ h
  · intro h h1 ht
    have h0 := observedGet_of_hasKey_eq_false obs _ h
    have hlt : observedGet obs (containerKey podNs podName cs.name) < cs.restartCount := by
      omega
    rw [processContainerStatus_of_new podNs podName (obs, evs) cs t ht hlt]
  · rcases processContainerStatus_cases podNs podName (obs, evs) cs with
      ⟨t', ht', hlt', heq⟩ | heq
    · rw [heq]
      refine processContainerStatus_of_stale podNs podName _ cs ?_
      rintro ⟨hlt2, -⟩
      rw [show ((observedSet obs (containerKey podNs podName cs.name) cs.restartCount,
            evs ++ [⟨podNs, podName, cs.name, t'.reason, toString t'.exitCode,
                     (t'.finishedAtUnix : ℚ)⟩]) :
            ObservedRestarts × List TermEvent).1 =
          observedSet obs (containerKey podNs podName cs.name) cs.restartCount from rfl,
        observedGet_observedSet] at hlt2
      simp at hlt2
    · rw [heq, heq]
  · intro pod obs0
    rfl

/-- Witness for C1: a concrete first restart with a snapshot is
published. -/
theorem C1_witness :
    (processContainerStatus "default" "mypod" ([], []) csW).2 =
      [] ++ [⟨"default", "mypod", "app", tW.reason, toString tW.exitCode,
              (tW.finishedAtUnix : ℚ)⟩] :=
  (C1_observe_publishes_iff "default" "mypod" [] [] csW tW).2.2.2.1
    rfl (by decide) rfl

/-- C2 counterexample: the claim says a confirmed pod deletion evicts
every tracked entry of that pod, so a later observation starts from the
implicit counter 0. In the code, `reconcilePod` on not-found returns
without touching `observedRestarts`: the entry survives with counter 5,
and a later observation with counter 3 and a snapshot (which would be new
for a fresh identity) publishes nothing. -/
theorem C2_counterexample :
    (reconcilePod GetResult.notFound [("default/mypod/app", 5)]).1 =
        [("default/mypod/app", 5)] ∧
    observedGet (reconcilePod GetResult.notFound [("default/mypod/app", 5)]).1
        (containerKey "default" "mypod" "app") = 5 ∧
    (processContainerStatus "default" "mypod"
        ((reconcilePod GetResult.notFound [("default/mypod/app", 5)]).1, [])
        ⟨"app", 3, some tW⟩).2 = [] := by
  refine ⟨rfl, ?_, ?_⟩ <;> decide

/-- C2 amended: when the pod fetch reports not-found, the reconciliation
is a no-op on the tracked-restart state — it returns an empty result and
no error, publishes nothing, and evicts no entry, so every previously
stored counter is still visible to subsequent observations. -/
theorem C2_amended_notFound_noop (obs : ObservedRestarts) :
    reconcilePod GetResult.notFound obs = (obs, [], emptyResult, none) ∧
    ∀ k, observedGet (reconcilePod GetResult.notFound obs).1 k = observedGet obs k :=
  ⟨rfl, fun _ => rfl⟩

/-- C9: the stored counter for any key never decreases, across a single
pod reconciliation and across any sequence of them; and a key absent from
the state stays absent unless the reconciliation published a
termination-info event for exactly that identity. -/
theorem C9_counter_monotone :
    (∀ (fetch : GetResult Pod) (obs : ObservedRestarts) (k : String),
        observedGet obs k ≤ observedGet (reconcilePod fetch obs).1 k)
    ∧ (∀ (fetches : List (GetResult Pod)) (obs : ObservedRestarts) (k : String),
        observedGet obs k ≤ observedGet (reconcilePodSeq fetches obs) k)
    ∧ (∀ (fetch : GetResult Pod) (obs : ObservedRestarts) (k : String),
        observedHasKey (reconcilePod fetch obs).1 k = true →
        observedHasKey obs k = true ∨
          ∃ ev ∈ (reconcilePod fetch obs).2.1,
            containerKey ev.ns ev.pod ev.container = k) := by
  have single : ∀ (fetch : GetResult Pod) (obs : ObservedRestarts) (k : String),
      observedGet obs k ≤ observedGet (reconcilePod fetch obs).1 k := by
    intro fetch obs k
    cases fetch with
    | fetchError e => exact le_refl _
    | notFound => exact le_refl _
    | found pod =>
        simpa using
          foldl_observedGet_le pod.ns pod.name pod.containerStatuses (obs, []) k
  refine ⟨single, ?_, ?_⟩
  · intro fetches
    induction fetches with
    | nil => intro obs k; exact le_refl _
    | cons f rest ih =>
        intro obs k
        calc observedGet obs k
            ≤ observedGet (reconcilePod f obs).1 k := single f obs k
          _ ≤ _ := by simpa [reconcilePodSeq] using ih (reconcilePod f obs).1 k
  · intro fetch obs k h
    cases fetch with
    | fetchError e => exact Or.inl h
    | notFound => exact Or.inl h
    | found pod =>
        simpa using
          foldl_hasKey pod.ns pod.name pod.containerStatuses (obs, []) k (by simpa using h)

/-- Witness for C9: a concrete reconciliation that adds a key also
published the matching event (discharging the hypothesis of the third
conjunct at the found pod `podW` over the empty state). -/
theorem C9_witness :
    observedHasKey ([] : ObservedRestarts) "default/mypod/app" = true ∨
      ∃ ev ∈ (reconcilePod (GetResult.found podW) []).2.1,
        containerKey ev.ns ev.pod ev.container = "default/mypod/app" :=
  C9_counter_monotone.2.2 (GetResult.found podW) [] "default/mypod/app" (by decide)

/-- C10: the pod path requests neither a requeue nor a requeue interval:
a non-not-found fetch error is returned with an empty result, and every
other case returns an empty result and no error; the empty result is
`{Requeue: false, RequeueAfter: 0}`. -/
theorem C10_pod_empty_result (obs : ObservedRestarts) (pod : Pod) (e : Nat) :
    reconcilePod (GetResult.fetchError e) obs = (obs, [], emptyResult, some e) ∧
    reconcilePod GetResult.notFound obs = (obs, [], emptyResult, none) ∧
    (reconcilePod (GetResult.found pod) obs).2.2 = (emptyResult, none) ∧
    emptyResult = ⟨false, 0⟩ :=
  ⟨rfl, rfl, rfl, rfl⟩

/-- C4: over a found secret, a certificate-evaluation failure on one
recognized key leaves that key's metric cells exactly as they were,
while every other recognized key is still evaluated and published (a
successfully parsed key ends with its fresh values), and the
reconciliation returns no error (with the usual one-hour requeue). -/
theorem C4_per_key_isolation (lib : X509Lib) (now : GoTime)
    (reqNs reqName : String) (secret : Secret) (ms : CertMetrics)
    (k : String) (d : Bytes) :
    (reconcileSecret lib now reqNs reqName (GetResult.found secret) ms).2 =
      (⟨false, timeHour⟩, none) ∧
    ((secret.data.map Prod.fst).Nodup → (k, d) ∈ secret.data →
      (∀ e : CertError, parseCertificateFromPEM lib d = .error e →
        gaugeGet (reconcileSecret lib now reqNs reqName
            (GetResult.found secret) ms).1.expiration ⟨reqNs, reqName, k⟩ =
          gaugeGet ms.expiration ⟨reqNs, reqName, k⟩ ∧
        gaugeGet (reconcileSecret lib now reqNs reqName
            (GetResult.found secret) ms).1.days ⟨reqNs, reqName, k⟩ =
          gaugeGet ms.days ⟨reqNs, reqName, k⟩) ∧
      (∀ cert : Certificate, recognizedCertKey k = true →
        parseCertificateFromPEM lib d = .ok cert →
        gaugeGet (reconcileSecret lib now reqNs reqName
            (GetResult.found secret) ms).1.expiration ⟨reqNs, reqName, k⟩ =
          some ((timeUnix cert.notAfter : Int) : ℚ) ∧
        gaugeGet (reconcileSecret lib now reqNs reqName
            (GetResult.found secret) ms).1.days ⟨reqNs, reqName, k⟩ =
          some (durationHours (timeSubNs cert.notAfter now) / 24))) := by
  refine ⟨rfl, ?_⟩
  intro hnd hmem
  obtain ⟨l1, l2, hsplit⟩ := List.append_of_mem hmem
  have hnd2 : (l1.map Prod.fst ++ (k :: l2.map Prod.fst)).Nodup := by
    rw [hsplit] at hnd
    simpa using hnd
  have hk1 : k ∉ l1.map Prod.fst := fun hm =>
    (List.nodup_append.mp hnd2).2.2 hm (List.mem_cons_self _ _)
  have hk2 : k ∉ l2.map Prod.fst :=
    (List.nodup_cons.mp (List.nodup_append.mp hnd2).2.1).1
  have hfold : (reconcileSecret lib now reqNs reqName
      (GetResult.found secret) ms).1 =
      l2.foldl (checkSecretKey lib now reqNs reqName)
        (checkSecretKey lib now reqNs reqName
          (l1.foldl (checkSecretKey lib now reqNs reqName) ms) (k, d)) := by
    show secret.data.foldl (checkSecretKey lib now reqNs reqName) ms = _
    rw [hsplit, List.foldl_append, List.foldl_cons]
  have hl1 := foldl_checkSecretKey_gaugeGet_notMem lib now reqNs reqName l1 k hk1 ms
  constructor
  · intro e hp
    have hstep := checkSecretKey_of_parseError lib now reqNs reqName
      (l1.foldl (checkSecretKey lib now reqNs reqName) ms) k d e hp
    have hl2 := foldl_checkSecretKey_gaugeGet_notMem lib now reqNs reqName l2 k hk2
      (checkSecretKey lib now reqNs reqName
        (l1.foldl (checkSecretKey lib now reqNs reqName) ms) (k, d))
    rw [hfold]
    rw [hl2.1, hl2.2, hstep]
    exact ⟨hl1.1, hl1.2⟩
  · intro cert hr hp
    have hstep := checkSecretKey_of_parseOk lib now reqNs reqName
      (l1.foldl (checkSecretKey lib now reqNs reqName) ms) k d cert hr hp
    have hl2 := foldl_checkSecretKey_gaugeGet_notMem lib now reqNs reqName l2 k hk2
      (checkSecretKey lib now reqNs reqName
        (l1.foldl (checkSecretKey lib now reqNs reqName) ms) (k, d))
    rw [hfold]
    rw [hl2.1, hl2.2]
    exact hstep

/-- Witness for C4: on the concrete secret `secretW` (one valid key, one
truncated key, one ignored key) the truncated key `issuer.crt` leaves its
cells untouched while `ca.crt` is published. -/
theorem C4_witness :
    (gaugeGet (reconcileSecret libW nowW "linkerd" "linkerd-identity-issuer"
          (GetResult.found secretW) msW).1.expiration
          ⟨"linkerd", "linkerd-identity-issuer", "issuer.crt"⟩ =
        gaugeGet msW.expiration
          ⟨"linkerd", "linkerd-identity-issuer", "issuer.crt"⟩ ∧
      gaugeGet (reconcileSecret libW nowW "linkerd" "linkerd-identity-issuer"
          (GetResult.found secretW) msW).1.days
          ⟨"linkerd", "linkerd-identity-issuer", "issuer.crt"⟩ =
        gaugeGet msW.days
          ⟨"linkerd", "linkerd-identity-issuer", "issuer.crt"⟩) ∧
    (gaugeGet (reconcileSecret libW nowW "linkerd" "linkerd-identity-issuer"
          (GetResult.found secretW) msW).1.expiration
          ⟨"linkerd", "linkerd-identity-issuer", "ca.crt"⟩ =
        some ((timeUnix (⟨⟨100, 0⟩⟩ : Certificate).notAfter : Int) : ℚ) ∧
      gaugeGet (reconcileSecret libW nowW "linkerd" "linkerd-identity-issuer"
          (GetResult.found secretW) msW).1.days
          ⟨"linkerd", "linkerd-identity-issuer", "ca.crt"⟩ =
        some (durationHours
          (timeSubNs (⟨⟨100, 0⟩⟩ : Certificate).notAfter nowW) / 24)) :=
  ⟨((C4_per_key_isolation libW nowW "linkerd" "linkerd-identity-issuer"
      secretW msW "issuer.crt" [7]).2 (by decide) (by decide)).1
        CertError.certificateParse (by rfl),
   ((C4_per_key_isolation libW nowW "linkerd" "linkerd-identity-issuer"
      secretW msW "ca.crt" [0]).2 (by decide) (by decide)).2
        ⟨⟨100, 0⟩⟩ (by rfl) (by rfl)⟩

/-- C5: on not-found, the certificate reconciliation removes every cell
whose labels match the request's namespace and name from both gauge
families, keeps every other cell, and returns no error. -/
theorem C5_notFound_cleanup (lib : X509Lib) (now : GoTime)
    (reqNs reqName : String) (ms : CertMetrics) :
    (reconcileSecret lib now reqNs reqName GetResult.notFound ms).2.2 = none ∧
    (∀ p ∈ (reconcileSecret lib now reqNs reqName
        GetResult.notFound ms).1.expiration,
      ¬ (p.1.ns = reqNs ∧ p.1.secretName = reqName)) ∧
    (∀ p ∈ (reconcileSecret lib now reqNs reqName
        GetResult.notFound ms).1.days,
      ¬ (p.1.ns = reqNs ∧ p.1.secretName = reqName)) ∧
    (∀ p ∈ ms.expiration, ¬ (p.1.ns = reqNs ∧ p.1.secretName = reqName) →
      p ∈ (reconcileSecret lib now reqNs reqName
        GetResult.notFound ms).1.expiration) ∧
    (∀ p ∈ ms.days, ¬ (p.1.ns = reqNs ∧ p.1.secretName = reqName) →
      p ∈ (reconcileSecret lib now reqNs reqName
        GetResult.notFound ms).1.days) := by
  refine ⟨rfl, ?_, ?_, ?_, ?_⟩
  · intro p hp
    exact ((mem_deletePartialMatch ms.expiration reqNs reqName p).mp hp).2
  · intro p hp
    exact ((mem_deletePartialMatch ms.days reqNs reqName p).mp hp).2
  · intro p hp hnm
    exact (mem_deletePartialMatch ms.expiration reqNs reqName p).mpr ⟨hp, hnm⟩
  · intro p hp hnm
    exact (mem_deletePartialMatch ms.days reqNs reqName p).mpr ⟨hp, hnm⟩

/-- Witness for C5: on the concrete metrics `msW`, the cleanup returns no
error and the unrelated cell survives with labels that do not match. -/
theorem C5_witness :
    (reconcileSecret libW nowW "linkerd" "linkerd-identity-issuer"
        GetResult.notFound msW).2.2 = none ∧
    ¬ (((⟨"other", "s", "ca.crt"⟩, (2 : ℚ)) : CertLabels × ℚ).1.ns = "linkerd" ∧
       ((⟨"other", "s", "ca.crt"⟩, (2 : ℚ)) : CertLabels × ℚ).1.secretName =
         "linkerd-identity-issuer") :=
  ⟨(C5_notFound_cleanup libW nowW "linkerd" "linkerd-identity-issuer" msW).1,
   (C5_notFound_cleanup libW nowW "linkerd" "linkerd-identity-issuer" msW).2.1
     (⟨"other", "s", "ca.crt"⟩, (2 : ℚ)) (by decide)⟩

/-- C6 counterexample: the claim says every certificate-path
reconciliation schedules a one-hour requeue; on a concrete not-found
fetch the code returns the empty result (`RequeueAfter` 0), not a
one-hour requeue. -/
theorem C6_counterexample :
    (reconcileSecret libW nowW "linkerd" "linkerd-identity-issuer"
        GetResult.notFound msW).2.1.requeueAfter ≠ timeHour ∧
    (reconcileSecret libW nowW "linkerd" "linkerd-identity-issuer"
        GetResult.notFound msW).2.1 = emptyResult := by
  refine ⟨?_, rfl⟩
  decide

/-- C6 amended: only the found-secret outcome schedules the fixed
one-hour requeue; the not-found outcome and a non-not-found fetch error
return the empty result, i.e. no timed re-check is scheduled there. -/
theorem C6_amended_requeue (lib : X509Lib) (now : GoTime)
    (reqNs reqName : String) (secret : Secret) (ms : CertMetrics) (e : Nat) :
    (reconcileSecret lib now reqNs reqName (GetResult.found secret) ms).2.1 =
      ⟨false, timeHour⟩ ∧
    (reconcileSecret lib now reqNs reqName GetResult.notFound ms).2.1 =
      emptyResult ∧
    (reconcileSecret lib now reqNs reqName (GetResult.fetchError e) ms).2.1 =
      emptyResult ∧
    timeHour = 3600 * 1000000000 :=
  ⟨rfl, rfl, rfl, rfl⟩

/-- C7: certificate evaluation fails with the malformed-input error iff
no PEM block decodes, fails with the certificate-parse error iff a block
decodes but its bytes are not a valid certificate, succeeds with the
certificate otherwise, and its outcome depends only on the first decoded
block (the remaining bytes, where further PEM blocks would live, are
never consulted). -/
theorem C7_parse_classification (lib : X509Lib) (pemData pemData2 : Bytes) :
    (parseCertificateFromPEM lib pemData = .error .malformedInput ↔
      lib.pemDecode pemData = none) ∧
    (parseCertificateFromPEM lib pemData = .error .certificateParse ↔
      ∃ block rest, lib.pemDecode pemData = some (block, rest) ∧
        lib.parseCertificate block.bytes = none) ∧
    (∀ cert : Certificate,
      parseCertificateFromPEM lib pemData = .ok cert ↔
        ∃ block rest, lib.pemDecode pemData = some (block, rest) ∧
          lib.parseCertificate block.bytes = some cert) ∧
    (Option.map Prod.fst (lib.pemDecode pemData) =
        Option.map Prod.fst (lib.pemDecode pemData2) →
      parseCertificateFromPEM lib pemData = parseCertificateFromPEM lib pemData2) := by
  refine ⟨?_, ?_, ?_, ?_⟩
  · cases hd : lib.pemDecode pemData with
    | none => simp [parseCertificateFromPEM, hd]
    | some br =>
        obtain ⟨b, r⟩ := br
        cases hp : lib.parseCertificate b.bytes with
        | none => simp [parseCertificateFromPEM, hd, hp]
        | some cert => simp [parseCertificateFromPEM, hd, hp]
  · cases hd : lib.pemDecode pemData with
    | none => simp [parseCertificateFromPEM, hd]
    | some br =>
        obtain ⟨b, r⟩ := br
        cases hp : lib.parseCertificate b.bytes with
        | none => simp [parseCertificateFromPEM, hd, hp]
        | some cert => simp [parseCertificateFromPEM, hd, hp]
  · intro cert
    cases hd : lib.pemDecode pemData with
    | none => simp [parseCertificateFromPEM, hd]
    | some br =>
        obtain ⟨b, r⟩ := br
        cases hp : lib.parseCertificate b.bytes with
        | none => simp [parseCertificateFromPEM, hd, hp]
        | some cert' => simp [parseCertificateFromPEM, hd, hp]
  · intro h
    cases hd : lib.pemDecode pemData with
    | none =>
        cases hd2 : lib.pemDecode pemData2 with
        | none => simp [parseCertificateFromPEM, hd, hd2]
        | some br2 => rw [hd, hd2] at h; simp at h
    | some br =>
        obtain ⟨b, r⟩ := br
        cases hd2 : lib.pemDecode pemData2 with
        | none => rw [hd, hd2] at h; simp at h
        | some br2 =>
            obtain ⟨b2, r2⟩ := br2
            rw [hd, hd2] at h
            have hb : b = b2 := by simpa using h
            simp [parseCertificateFromPEM, hd, hd2, hb]

/-- Witness for C7: `[0]` and `[5]` decode to the same first block with
different remainders, and evaluation cannot tell them apart. -/
theorem C7_witness :
    parseCertificateFromPEM libW [0] = parseCertificateFromPEM libW [5] :=
  (C7_parse_classification libW [0] [5]).2.2.2 (by decide)

/-- C8: for a successfully parsed certificate, the absolute-expiry cell
is set to `NotAfter` as Unix seconds and the days-remaining cell to the
signed fractional `(NotAfter - now) / 86400` (in exact seconds), with an
already-expired certificate yielding a negative value, not clamped. -/
theorem C8_metric_values (lib : X509Lib) (now : GoTime)
    (ns secretName certType : String) (certData : Bytes) (ms : CertMetrics)
    (cert : Certificate)
    (hp : parseCertificateFromPEM lib certData = .ok cert) :
    gaugeGet (checkCertificateExpiration lib now ns secretName certType
        certData ms).1.expiration ⟨ns, secretName, certType⟩ =
      some ((timeUnix cert.notAfter : Int) : ℚ) ∧
    timeUnix cert.notAfter = cert.notAfter.sec ∧
    gaugeGet (checkCertificateExpiration lib now ns secretName certType
        certData ms).1.days ⟨ns, secretName, certType⟩ =
      some ((((cert.notAfter.sec : ℚ) + (cert.notAfter.nsec : ℚ) / 1000000000)
              - ((now.sec : ℚ) + (now.nsec : ℚ) / 1000000000)) / 86400) ∧
    (((cert.notAfter.sec : ℚ) + (cert.notAfter.nsec : ℚ) / 1000000000)
        < ((now.sec : ℚ) + (now.nsec : ℚ) / 1000000000) →
      durationHours (timeSubNs cert.notAfter now) / 24 < 0) := by
  refine ⟨?_, rfl, ?_, ?_⟩
  · unfold checkCertificateExpiration
    simp [hp, gaugeGet_gaugeSet]
  · unfold checkCertificateExpiration
    simp [hp, gaugeGet_gaugeSet, daysValue_eq_secondsOver86400]
  · intro hlt
    rw [daysValue_eq_secondsOver86400]
    apply div_neg_of_neg_of_pos
    · linarith
    · norm_num

/-- Witness for C8: a concrete certificate expiring at Unix second 100 is
published with value 100, and evaluated at a clock past its expiry the
days-remaining value is negative. -/
theorem C8_witness :
    gaugeGet (checkCertificateExpiration libW nowW "linkerd" "s" "ca.crt" [0]
        ⟨[], []⟩).1.expiration ⟨"linkerd", "s", "ca.crt"⟩ =
      some ((timeUnix (⟨⟨100, 0⟩⟩ : Certificate).notAfter : Int) : ℚ) ∧
    durationHours (timeSubNs (⟨⟨100, 0⟩⟩ : Certificate).notAfter ⟨200, 0⟩) / 24 < 0 :=
  ⟨(C8_metric_values libW nowW "linkerd" "s" "ca.crt" [0] ⟨[], []⟩
      ⟨⟨100, 0⟩⟩ (by rfl)).1,
   (C8_metric_values libW ⟨200, 0⟩ "linkerd" "s" "ca.crt" [0] ⟨[], []⟩
      ⟨⟨100, 0⟩⟩ (by rfl)).2.2.2 (by norm_num)⟩

end PodMonitor
